import Mathlib

/-!
Verification of `multirep` (src/src/lib.rs): a multi-pattern string
replacement library with two functions, `multi_replace` and `exchange`.

The embedding models a Rust `&str` as a `List Char` (a sequence of Unicode
scalars), addressed by scalar offset.  Offsets returned by the matcher are
therefore always scalar boundaries, which is the same guarantee Rust's
`str::match_indices` gives at the byte level.  The renderer's two
`get_unchecked` slices are modelled as fallible: a slice whose bounds are
out of order or out of range yields `none` (in Rust it is undefined
behaviour), so `multi_replace` returns `Option (List Char)`.
-/

abbrev Str := List Char

/-- One scanning pass of `s.match_indices(pat)` (lib.rs line 32), starting at
offset `j`.  Rust's `match_indices` yields leftmost, non-overlapping matches:
after a match at `j` the scan resumes at `j + pat.length`; an empty pattern
matches at every scalar boundary and the scan advances by one scalar, hence
the `max 1` step.  `fuel` only bounds the recursion; `s.length + 1` steps
always suffice because the offset grows by at least one per step. -/
def matchIndicesGo (s pat : Str) : Nat → Nat → List Nat
  | 0, _ => []
  | fuel + 1, j =>
    if s.length < j + pat.length then []
    else if (s.drop j).take pat.length == pat then
      j :: matchIndicesGo s pat fuel (j + max 1 pat.length)
    else
      matchIndicesGo s pat fuel (j + 1)

/-- `s.match_indices(pat)` (lib.rs line 32): the start offsets of the
leftmost non-overlapping occurrences of `pat` in `s`. -/
def matchIndices (s pat : Str) : List Nat :=
  matchIndicesGo s pat (s.length + 1) 0

/-- `indices.range(..=i).next_back()` (lib.rs line 34-35): the entry of the
map with the greatest key that is at most `i`.  The map is a `BTreeMap`
keyed by start offset, modelled as a list of `(start, length, replacement)`
triples sorted by start offset. -/
def predOf (m : List (Nat × Nat × Str)) (i : Nat) : Option (Nat × Nat × Str) :=
  (m.filter (fun e => e.1 ≤ i)).getLast?

/-- The overlap test of lib.rs lines 33-38: keep the candidate at `i` iff the
greatest already-kept entry at offset `≤ i` ends at or before `i`
(`pos + len <= i`), or there is no such entry (`unwrap_or(true)`). -/
def keepCheck (m : List (Nat × Nat × Str)) (i : Nat) : Bool :=
  match predOf m i with
  | none => true
  | some e => decide (e.1 + e.2.1 ≤ i)

/-- `indices.insert(i, v)` (lib.rs line 39) on the sorted-list model of the
`BTreeMap`: insert keyed by `i`, replacing an existing entry with key `i`. -/
def insertSorted : List (Nat × Nat × Str) → Nat → Nat × Str → List (Nat × Nat × Str)
  | [], i, v => [(i, v.1, v.2)]
  | e :: rest, i, v =>
    if i < e.1 then (i, v.1, v.2) :: e :: rest
    else if i = e.1 then (i, v.1, v.2) :: rest
    else e :: insertSorted rest i v

/-- The body of the outer loop of lib.rs lines 31-42 for one `(pat, new)`
pair: scan the source for the pattern's occurrences and insert each one that
passes the overlap check, recording `(pattern length, replacement)`. -/
def collectStep (s : Str) (m : List (Nat × Nat × Str)) (pr : Str × Str) : List (Nat × Nat × Str) :=
  (matchIndices s pr.1).foldl
    (fun m i => if keepCheck m i then insertSorted m i (pr.1.length, pr.2) else m) m

/-- The resolver of lib.rs lines 29-42: the occurrence map `indices` after
processing every pattern in list order. -/
def collect (s : Str) (pats : List (Str × Str)) : List (Nat × Nat × Str) :=
  pats.foldl (collectStep s) []

/-- The renderer loop of lib.rs lines 44-61, cursor `e` (Rust `end`) and
accumulated output `acc` (Rust `result`).  For each kept occurrence it
splices `s.get_unchecked(e..pos)` then the replacement, and finally
`s.get_unchecked(e..)` when `e < s.len()`.  The unchecked slice `e..pos` is
modelled as defined only when `e ≤ pos ∧ pos ≤ s.length`; otherwise the Rust
code is undefined behaviour and the model returns `none`. -/
def renderGo (s : Str) : List (Nat × Nat × Str) → Nat → Str → Option Str
  | [], e, acc => some (if e < s.length then acc ++ s.drop e else acc)
  | (pos, len, new) :: rest, e, acc =>
    if e ≤ pos ∧ pos ≤ s.length then
      renderGo s rest (pos + len) (acc ++ (s.drop e).take (pos - e) ++ new)
    else none

/-- `multi_replace` (lib.rs lines 28-64): resolve the occurrence map, then
render it against the source. -/
def multi_replace (s : Str) (pats : List (Str × Str)) : Option Str :=
  renderGo s (collect s pats) 0 []

/-- Rust `str::len`, as used by the comparison `a.len() > b.len()` at
lib.rs line 74: the UTF-8 byte length of the string, the sum of the UTF-8
sizes of its scalars (`Char.utf8Size` is Rust's `char::len_utf8`). -/
def utf8Len (l : Str) : Nat :=
  (l.map Char.utf8Size).sum

/-- `exchange` (lib.rs lines 71-80): swap patterns `a` and `b`, putting the
pattern with the greater UTF-8 byte length first in the two-entry list
(`a.len() > b.len()` compares byte lengths). -/
def exchange (s a b : Str) : Option Str :=
  multi_replace s (if utf8Len b < utf8Len a then [(a, b), (b, a)] else [(b, a), (a, b)])

/-- Specification-side predicate (spec §3, Occurrence invariant): the kept
occurrences, listed in ascending start order, are pairwise non-overlapping:
each entry ends at or before the next entry starts. -/
def nonOverlapping : List (Nat × Nat × Str) → Bool
  | [] => true
  | [_] => true
  | a :: b :: rest => decide (a.1 + a.2.1 ≤ b.1) && nonOverlapping (b :: rest)

/-- Specification-side predicate: `p` occurs as a contiguous substring of
`s` (at some scalar offset).  The empty string occurs in every string. -/
def occursIn (p s : Str) : Bool :=
  (List.range (s.length + 1)).any (fun i => (s.drop i).take p.length == p)

/-! ### Helper lemmas -/

/-- Rendering an empty occurrence map returns the source unchanged
(lib.rs lines 44-61 with no loop iterations). -/
lemma renderGo_nil (s : Str) : renderGo s [] 0 [] = some s := by
  cases s with
  | nil => rfl
  | cons c t => simp [renderGo]

/-- A pattern that does not occur in `s` yields no match offsets, from any
scan position and with any fuel. -/
lemma matchIndicesGo_eq_nil (s pat : Str) (h : occursIn pat s = false) :
    ∀ fuel j, matchIndicesGo s pat fuel j = [] := by
  intro fuel
  induction fuel with
  | zero => intro j; rfl
  | succ n ih =>
    intro j
    rw [matchIndicesGo]
    by_cases h1 : s.length < j + pat.length
    · rw [if_pos h1]
    · rw [if_neg h1]
      by_cases h2 : ((s.drop j).take pat.length == pat) = true
      · exfalso
        have hj : j < s.length + 1 := by omega
        have : occursIn pat s = true := by
          unfold occursIn
          rw [List.any_eq_true]
          exact ⟨j, List.mem_range.mpr hj, h2⟩
        rw [this] at h
        exact Bool.noConfusion h
      · rw [if_neg h2]
        exact ih _

/-- When no pattern of `ps` occurs in `s`, the resolver loop leaves the
occurrence map unchanged. -/
lemma foldl_collectStep_no_match (s : Str) :
    ∀ (ps : List (Str × Str)) (m : List (Nat × Nat × Str)),
      (∀ pr ∈ ps, occursIn pr.1 s = false) →
      ps.foldl (collectStep s) m = m := by
  intro ps
  induction ps with
  | nil => intro m _; rfl
  | cons pr rest ih =>
    intro m h
    rw [List.foldl_cons]
    have hmi : matchIndices s pr.1 = [] :=
      matchIndicesGo_eq_nil s pr.1 (h pr (List.mem_cons_self _ _)) _ _
    have hstep : collectStep s m pr = m := by
      unfold collectStep
      rw [hmi, List.foldl_nil]
    rw [hstep]
    exact ih m (fun q hq => h q (List.mem_cons_of_mem _ hq))

/-- UTF-8 byte length is additive over concatenation. -/
lemma utf8Len_append (x y : Str) : utf8Len (x ++ y) = utf8Len x + utf8Len y := by
  simp [utf8Len]

/-- A nonempty string has positive UTF-8 byte length. -/
lemma utf8Len_pos_of_ne_nil (l : Str) (h : l ≠ []) : 1 ≤ utf8Len l := by
  cases l with
  | nil => exact absurd rfl h
  | cons c t =>
    have hc : 0 < c.utf8Size := Char.utf8Size_pos c
    simp only [utf8Len, List.map_cons, List.sum_cons]
    omega

/-- A proper substring is strictly shorter in UTF-8 bytes: if `a` occurs in
`b` and differs from `b`, then `a`'s byte length is strictly less. -/
lemma substring_utf8Len_lt (a b : Str) (hocc : occursIn a b = true) (hne : a ≠ b) :
    utf8Len a < utf8Len b := by
  unfold occursIn at hocc
  rw [List.any_eq_true] at hocc
  rcases hocc with ⟨i, _, hmatch⟩
  have ht : (b.drop i).take a.length = a := eq_of_beq hmatch
  have hsplit : b.drop i = a ++ (b.drop i).drop a.length := by
    conv_lhs => rw [← List.take_append_drop a.length (b.drop i)]
    rw [ht]
  have hb : b = b.take i ++ (a ++ (b.drop i).drop a.length) := by
    conv_lhs => rw [← List.take_append_drop i b, hsplit]
  have hlen : utf8Len b
      = utf8Len (b.take i) + (utf8Len a + utf8Len ((b.drop i).drop a.length)) := by
    conv_lhs => rw [hb]
    rw [utf8Len_append, utf8Len_append]
  by_cases h1 : b.take i = []
  · by_cases h2 : (b.drop i).drop a.length = []
    · exfalso
      apply hne
      rw [hb, h1, h2]
      simp
    · have := utf8Len_pos_of_ne_nil _ h2
      omega
  · have := utf8Len_pos_of_ne_nil _ h1
    omega

/-! ### Claim theorems -/

/-- C1: the claim states the kept occurrences are always pairwise
non-overlapping.  The code violates this: on source "ab" with patterns
[("b","X"), ("ab","Y")], the overlap check of lib.rs lines 33-38 consults
only the greatest kept entry at offset at most the candidate offset, so the
later pattern "ab" matching at offset 0 sees no predecessor and is inserted
even though it overlaps the kept occurrence (1, 1, "X").  The resulting map
[(0, 2, "Y"), (1, 1, "X")] has 0 + 2 > 1, refuting the invariant. -/
theorem C1_nonoverlap_invariant_fails :
    nonOverlapping
      (collect "ab".toList [("b".toList, "X".toList), ("ab".toList, "Y".toList)]) = false := by
  decide

/-- C2: the claim states `multi_replace` never reaches an invalid slice:
every cursor `end` and occurrence start `pos` satisfy `end ≤ pos`.  On
source "ab" with patterns [("b","X"), ("ab","Y")] the renderer reaches
cursor 2 with the next occurrence at position 1, so the Rust code executes
`s.get_unchecked(2..1)`, which is undefined behaviour; the model therefore
returns `none`. -/
theorem C2_renderer_reaches_invalid_slice :
    multi_replace "ab".toList [("b".toList, "X".toList), ("ab".toList, "Y".toList)] = none := by
  decide

/-- C5: the claim states a later pattern's match that overlaps an
already-kept occurrence is always discarded.  On source "ab" with patterns
[("b","X"), ("ab","Y")], the later pattern "ab" matches at offset 0,
overlapping the kept occurrence (1, 1, "X") of the earlier pattern "b", yet
it is inserted into the map rather than discarded (first two conjuncts).
The claim's own concrete example does hold (third conjunct). -/
theorem C5_priority :
    ((0, 2, "Y".toList) ∈
        collect "ab".toList [("b".toList, "X".toList), ("ab".toList, "Y".toList)]
      ∧ (1, 1, "X".toList) ∈
        collect "ab".toList [("b".toList, "X".toList), ("ab".toList, "Y".toList)])
    ∧ multi_replace "Hana is cute".toList
        [("Hana".toList, "Minami".toList), ("cute".toList, "kawaii".toList),
          ("na".toList, "no".toList)]
        = some "Minami is kawaii".toList := by
  exact ⟨by decide, by decide⟩

/-- C8: the overlap tie-break produces the spec's literal reference result:
the later pattern "oi" matches inside the kept "Aoi" occurrence and is
rejected, giving "Both Minami and Hana are kawaii". -/
theorem C8_overlap_reference_case :
    multi_replace "Bouh Aoi and Hana are kawaii".toList
      [("Bouh".toList, "Both".toList), ("Aoi".toList, "Minami".toList),
        ("oi".toList, "io".toList)]
      = some "Both Minami and Hana are kawaii".toList := by
  decide

/-- C9: identity on the empty pattern list: `multi_replace(s, [])` returns
the source unchanged, for every source. -/
theorem C9_identity_empty_pattern_list (s : Str) : multi_replace s [] = some s := by
  show renderGo s [] 0 [] = some s
  exact renderGo_nil s

/-- C10: no-match passthrough: if no pattern of the list occurs as a
substring of the source, `multi_replace` returns the source unchanged. -/
theorem C10_no_match_passthrough (s : Str) (pats : List (Str × Str))
    (h : ∀ pr ∈ pats, occursIn pr.1 s = false) :
    multi_replace s pats = some s := by
  unfold multi_replace collect
  rw [foldl_collectStep_no_match s pats [] h]
  exact renderGo_nil s

/-- C10 witness: none of the patterns "x", "yz" occurs in "abc", and
`multi_replace` leaves "abc" unchanged. -/
theorem C10_no_match_passthrough_witness :
    multi_replace "abc".toList [("x".toList, "y".toList), ("yz".toList, "w".toList)]
      = some "abc".toList :=
  C10_no_match_passthrough "abc".toList
    [("x".toList, "y".toList), ("yz".toList, "w".toList)] (by decide)

/-- C4 counterexample: exchange is not symmetric in its pattern arguments.
For the equal-length patterns "ab" and "ba" on source "aba", the argument
order decides which pattern is resolved first: `exchange("aba","ba","ab")`
resolves "ab" first and returns "baa", while `exchange("aba","ab","ba")`
resolves "ba" first, then inserts the overlapping "ab" match at offset 0
and reaches the undefined slice `s.get_unchecked(2..1)` (model: `none`). -/
theorem C4_exchange_not_symmetric :
    exchange "aba".toList "ab".toList "ba".toList
      ≠ exchange "aba".toList "ba".toList "ab".toList := by
  decide

/-- C4 amended: exchange is symmetric whenever the two patterns differ in
UTF-8 byte length (the quantity lib.rs line 74 compares); the pattern list
built by lib.rs lines 74-78 is then literally the same for both argument
orders.  For patterns of equal byte length the argument order decides which
pattern is resolved first and the results can differ (counterexample). -/
theorem C4_exchange_symmetric_of_ne_length (s a b : Str) (h : utf8Len a ≠ utf8Len b) :
    exchange s a b = exchange s b a := by
  rcases Nat.lt_or_ge (utf8Len a) (utf8Len b) with h1 | h1
  · unfold exchange
    rw [if_neg (by omega), if_pos h1]
  · have h2 : utf8Len b < utf8Len a := by omega
    unfold exchange
    rw [if_pos h2, if_neg (by omega)]

/-- C4 amended witness: patterns "ba" and "a" have different UTF-8 byte
lengths, and the two argument orders of `exchange` agree on "aba". -/
theorem C4_exchange_symmetric_witness :
    exchange "aba".toList "ba".toList "a".toList
      = exchange "aba".toList "a".toList "ba".toList :=
  C4_exchange_symmetric_of_ne_length "aba".toList "ba".toList "a".toList (by decide)

/-- C3 counterexample: an empty-pattern entry is not a no-op.  Rust's
`match_indices` with an empty pattern matches at every scalar boundary, so
`multi_replace("a", [("", "r")])` returns "rar", not "a". -/
theorem C3_empty_pattern_not_noop :
    multi_replace "a".toList [(([] : Str), "r".toList)] ≠ some "a".toList := by
  decide

/-- C7: exchange is substring-safe by ordering: when one pattern is a
proper substring of the other, it is strictly shorter in UTF-8 bytes, so
the comparison of lib.rs line 74 places the longer pattern first in the
two-entry list and its occurrences are claimed before the shorter pattern
can match inside them (first two conjuncts); on the spec's literal example
the longer pattern "Hinata" claims its span before "Hina" can match inside
it (third conjunct). -/
theorem C7_exchange_substring_safety :
    (∀ s a b : Str, occursIn b a = true → b ≠ a →
        exchange s a b = multi_replace s [(a, b), (b, a)])
    ∧ (∀ s a b : Str, occursIn a b = true → a ≠ b →
        exchange s a b = multi_replace s [(b, a), (a, b)])
    ∧ exchange "Both Hina and Hinata are kawaii".toList "Hina".toList "Hinata".toList
        = some "Both Hinata and Hina are kawaii".toList := by
  refine ⟨fun s a b h hne => ?_, fun s a b h hne => ?_, by decide⟩
  · have hlt : utf8Len b < utf8Len a := substring_utf8Len_lt b a h hne
    unfold exchange
    rw [if_pos hlt]
  · have hlt : utf8Len a < utf8Len b := substring_utf8Len_lt a b h hne
    unfold exchange
    rw [if_neg (by omega)]

/-- C7 witness: "b" is a proper substring of "ab", so `exchange` resolves
the longer pattern "ab" first. -/
theorem C7_exchange_substring_safety_witness :
    exchange "aba".toList "ab".toList "b".toList
      = multi_replace "aba".toList
          [("ab".toList, "b".toList), ("b".toList, "ab".toList)] :=
  C7_exchange_substring_safety.1 "aba".toList "ab".toList "b".toList
    (by decide) (by decide)

/-- Every offset produced by the matcher is a genuine occurrence of the
pattern in the original source. -/
lemma matchIndicesGo_mem (s pat : Str) :
    ∀ fuel j i, i ∈ matchIndicesGo s pat fuel j →
      (s.drop i).take pat.length = pat := by
  intro fuel
  induction fuel with
  | zero => intro j i h; exact absurd h (List.not_mem_nil i)
  | succ n ih =>
    intro j i h
    rw [matchIndicesGo] at h
    by_cases h1 : s.length < j + pat.length
    · rw [if_pos h1] at h
      exact absurd h (List.not_mem_nil i)
    · rw [if_neg h1] at h
      by_cases h2 : ((s.drop j).take pat.length == pat) = true
      · rw [if_pos h2] at h
        rcases List.mem_cons.mp h with rfl | h3
        · exact eq_of_beq h2
        · exact ih _ _ h3
      · rw [if_neg h2] at h
        exact ih _ _ h

/-- Membership after a map insertion: an element of the updated map is the
inserted entry or an element of the old map. -/
lemma insertSorted_mem :
    ∀ (m : List (Nat × Nat × Str)) (i : Nat) (v : Nat × Str) (e : Nat × Nat × Str),
      e ∈ insertSorted m i v → e = (i, v.1, v.2) ∨ e ∈ m := by
  intro m
  induction m with
  | nil =>
    intro i v e h
    rcases List.mem_cons.mp h with rfl | h2
    · exact Or.inl rfl
    · exact absurd h2 (List.not_mem_nil e)
  | cons a rest ih =>
    intro i v e h
    unfold insertSorted at h
    split_ifs at h with h1 h2
    · rcases List.mem_cons.mp h with rfl | h3
      · exact Or.inl rfl
      · exact Or.inr h3
    · rcases List.mem_cons.mp h with rfl | h3
      · exact Or.inl rfl
      · exact Or.inr (List.mem_cons_of_mem _ h3)
    · rcases List.mem_cons.mp h with rfl | h3
      · exact Or.inr (List.mem_cons_self _ _)
      · rcases ih i v e h3 with h4 | h4
        · exact Or.inl h4
        · exact Or.inr (List.mem_cons_of_mem _ h4)

/-- The inner resolver loop (over the match offsets of one pattern)
preserves any property that holds of the inserted entries and of the
incoming map. -/
lemma foldl_keep_mem (plen : Nat) (rep : Str) (Q : Nat × Nat × Str → Prop) :
    ∀ (l : List Nat) (m : List (Nat × Nat × Str)),
      (∀ i ∈ l, Q (i, plen, rep)) → (∀ e ∈ m, Q e) →
      ∀ e ∈ l.foldl
        (fun m i => if keepCheck m i then insertSorted m i (plen, rep) else m) m,
        Q e := by
  intro l
  induction l with
  | nil => intro m _ hm e he; exact hm e he
  | cons i rest ih =>
    intro m hl hm e he
    rw [List.foldl_cons] at he
    refine ih _ (fun x hx => hl x (List.mem_cons_of_mem _ hx)) ?_ e he
    intro x hx
    by_cases hk : keepCheck m i = true
    · rw [if_pos hk] at hx
      rcases insertSorted_mem m i (plen, rep) x hx with rfl | h4
      · exact hl i (List.mem_cons_self _ _)
      · exact hm x h4
    · rw [if_neg hk] at hx
      exact hm x hx

/-- The resolver only ever stores entries that record a genuine occurrence,
in the original source, of a pattern of the list, paired with that
pattern's replacement and length. -/
lemma collect_mem_spec (s : Str) (pats : List (Str × Str)) :
    ∀ (ps : List (Str × Str)) (m : List (Nat × Nat × Str)),
      (∀ pr ∈ ps, pr ∈ pats) →
      (∀ e ∈ m, ∃ p r, (p, r) ∈ pats ∧ e.2.2 = r ∧ e.2.1 = p.length
        ∧ (s.drop e.1).take p.length = p) →
      ∀ e ∈ ps.foldl (collectStep s) m,
        ∃ p r, (p, r) ∈ pats ∧ e.2.2 = r ∧ e.2.1 = p.length
          ∧ (s.drop e.1).take p.length = p := by
  intro ps
  induction ps with
  | nil => intro m _ hm e he; exact hm e he
  | cons pr rest ih =>
    intro m hps hm e he
    rw [List.foldl_cons] at he
    refine ih _ (fun q hq => hps q (List.mem_cons_of_mem _ hq)) ?_ e he
    intro x hx
    unfold collectStep at hx
    refine foldl_keep_mem pr.1.length pr.2 _ (matchIndices s pr.1) m ?_ hm x hx
    intro i hi
    refine ⟨pr.1, pr.2, ?_, rfl, rfl, matchIndicesGo_mem s pr.1 _ _ i hi⟩
    have : (pr.1, pr.2) = pr := rfl
    rw [this]
    exact hps pr (List.mem_cons_self _ _)

/-- C6: all matching is performed against the original source: every entry
of the resolved occurrence map is a genuine occurrence, in the untouched
source, of one of the listed patterns, carrying that pattern's replacement
(first conjunct) — so replacement text inserted by one pattern is never
rescanned; in particular the pattern "kawaii" does not match inside the
replacement "kawaii" inserted for "cute" (second conjunct). -/
theorem C6_no_rematch_of_replacements :
    (∀ (s : Str) (pats : List (Str × Str)) (pos len : Nat) (new : Str),
        (pos, len, new) ∈ collect s pats →
        ∃ p r, (p, r) ∈ pats ∧ new = r ∧ len = p.length
          ∧ (s.drop pos).take p.length = p)
    ∧ multi_replace "Hana is cute".toList
        [("Hana".toList, "Minami".toList), ("cute".toList, "kawaii".toList),
          ("kawaii".toList, "hot".toList)]
        = some "Minami is kawaii".toList := by
  constructor
  · intro s pats pos len new h
    exact collect_mem_spec s pats pats [] (fun _ hp => hp)
      (fun e he => absurd he (List.not_mem_nil e)) (pos, len, new) h
  · decide

/-- C6 witness: on "Hana is cute" the kept occurrence (8, 6, "kawaii") of
the resolver traces back to a pattern of the list matching at offset 8 of
the original source. -/
theorem C6_no_rematch_witness :
    ∃ p r, (p, r) ∈ [("Hana".toList, "Minami".toList),
        ("cute".toList, "kawaii".toList), ("kawaii".toList, "hot".toList)]
      ∧ "kawaii".toList = r ∧ 4 = p.length
      ∧ ("Hana is cute".toList.drop 8).take p.length = p :=
  C6_no_rematch_of_replacements.1 "Hana is cute".toList
    [("Hana".toList, "Minami".toList), ("cute".toList, "kawaii".toList),
      ("kawaii".toList, "hot".toList)] 8 4 "kawaii".toList (by decide)

/-- The matcher on the empty pattern yields every scalar boundary of the
remaining source, exactly as Rust's `match_indices("")`. -/
lemma matchIndicesGo_empty_pat (s : Str) :
    ∀ (f j : Nat), j + f = s.length + 1 →
      matchIndicesGo s [] f j = List.range' j f := by
  intro f
  induction f with
  | zero => intro j h; rfl
  | succ n ih =>
    intro j h
    rw [matchIndicesGo]
    rw [if_neg (by simp only [List.length_nil]; omega)]
    have hc : ((s.drop j).take (List.length ([] : Str)) == ([] : Str)) = true := rfl
    rw [if_pos hc]
    have hstep : j + max 1 (List.length ([] : Str)) = j + 1 := rfl
    rw [hstep, ih (j + 1) (by omega)]
    rfl

/-- `matchIndices` on the empty pattern is `[0, 1, ..., s.length]`. -/
lemma matchIndices_empty_pat (s : Str) :
    matchIndices s [] = List.range (s.length + 1) := by
  rw [matchIndices, matchIndicesGo_empty_pat s (s.length + 1) 0 (by omega),
    List.range_eq_range']

/-- Inserting a key greater than every key of the map appends the entry at
the end. -/
lemma insertSorted_append (k : Nat) (v : Nat × Str) :
    ∀ (l : List (Nat × Nat × Str)), (∀ e ∈ l, e.1 < k) →
      insertSorted l k v = l ++ [(k, v.1, v.2)] := by
  intro l
  induction l with
  | nil => intro _; rfl
  | cons a rest ih =>
    intro h
    have ha : a.1 < k := h a (List.mem_cons_self _ _)
    unfold insertSorted
    rw [if_neg (by omega), if_neg (by omega)]
    rw [ih (fun e he => h e (List.mem_cons_of_mem _ he))]
    rfl

/-- The overlap check accepts offset `n` against the map of zero-length
occurrences at offsets `0, ..., n-1`. -/
lemma keepCheck_zero_len_range (r : Str) (n : Nat) :
    keepCheck ((List.range n).map (fun i => (i, 0, r))) n = true := by
  unfold keepCheck predOf
  rw [List.filter_eq_self.mpr ?side]
  case side =>
    intro e he
    simp only [List.mem_map, List.mem_range] at he
    rcases he with ⟨i, hi, rfl⟩
    simp only [decide_eq_true_eq]
    omega
  cases n with
  | zero => rfl
  | succ m =>
    rw [List.range_succ, List.map_append, List.map_cons, List.map_nil,
      List.getLast?_concat]
    simp only [decide_eq_true_eq]
    omega

/-- Resolving the empty pattern with replacement `r` yields a zero-length
occurrence of `r` at every scalar boundary of the source. -/
lemma collect_empty_pat (s r : Str) :
    collect s [([], r)] = (List.range (s.length + 1)).map (fun i => (i, 0, r)) := by
  have haux : ∀ n : Nat,
      (List.range n).foldl
        (fun m i => if keepCheck m i then insertSorted m i (0, r) else m) []
        = (List.range n).map (fun i => (i, 0, r)) := by
    intro n
    induction n with
    | zero => rfl
    | succ n ih =>
      rw [List.range_succ, List.foldl_append, ih, List.map_append,
        List.foldl_cons, List.foldl_nil, List.map_cons, List.map_nil]
      rw [if_pos (keepCheck_zero_len_range r n)]
      rw [insertSorted_append n (0, r) _ ?bound]
      case bound =>
        intro e he
        simp only [List.mem_map, List.mem_range] at he
        rcases he with ⟨i, hi, rfl⟩
        exact hi
  unfold collect
  rw [List.foldl_cons, List.foldl_nil]
  unfold collectStep
  rw [matchIndices_empty_pat]
  exact haux (s.length + 1)

/-- Rendering the zero-length occurrences at offsets `j, j+1, ..., s.length`
from cursor `e ≤ j` splices `r` at every remaining boundary: the output is
the accumulator, the untouched span `[e, j)`, and `r` interleaved between
the remaining characters of the source. -/
lemma renderGo_zero_len_range (s r : Str) :
    ∀ (f j e : Nat) (acc : Str), e ≤ j → j + (f + 1) = s.length + 1 →
      renderGo s ((List.range' j (f + 1)).map (fun i => (i, 0, r))) e acc
        = some (acc ++ (s.drop e).take (j - e)
            ++ (r ++ (s.drop j).foldr (fun c acc => c :: (r ++ acc)) [])) := by
  intro f
  induction f with
  | zero =>
    intro j e acc hej hlen
    have hj : j = s.length := by omega
    subst hj
    show renderGo s [(s.length, 0, r)] e acc = _
    rw [renderGo, if_pos ⟨hej, le_refl _⟩, renderGo]
    rw [if_neg (by omega)]
    rw [List.drop_length]
    simp [List.append_assoc]
  | succ f ih =>
    intro j e acc hej hlen
    have hj : j < s.length := by omega
    have hcons : List.range' j (f + 1 + 1) = j :: List.range' (j + 1) (f + 1) := rfl
    rw [hcons, List.map_cons, renderGo, if_pos ⟨hej, le_of_lt hj⟩]
    rw [ih (j + 1) (j + 0) _ (by omega) (by omega)]
    have hd : s.drop j = s.get ⟨j, hj⟩ :: s.drop (j + 1) :=
      List.drop_eq_getElem_cons hj
    have h1 : (s.drop (j + 0)).take (j + 1 - (j + 0)) = [s.get ⟨j, hj⟩] := by
      have e1 : j + 0 = j := rfl
      have e2 : j + 1 - (j + 0) = 1 := by omega
      rw [e2, e1, hd]
      rfl
    rw [h1, hd, List.foldr_cons]
    simp [List.append_assoc]

/-- C3 amended: an empty-pattern entry matches a zero-length occurrence at
every scalar boundary of the source, so `multi_replace(s, [("", r)])`
returns `r` interleaved before, between and after the characters of `s`
(for example "abc" becomes "rarbrcr"), not `s` itself. -/
theorem C3_empty_pattern_interleaves (s r : Str) :
    multi_replace s [([], r)]
      = some (r ++ s.foldr (fun c acc => c :: (r ++ acc)) []) := by
  unfold multi_replace
  rw [collect_empty_pat, List.range_eq_range']
  rw [renderGo_zero_len_range s r s.length 0 0 [] (le_refl 0) (Nat.zero_add _)]
  simp

/-- C3 amended witness: on source "abc" with replacement "r" the result is
"rarbrcr". -/
theorem C3_empty_pattern_interleaves_witness :
    multi_replace "abc".toList [(([] : Str), "r".toList)] = some "rarbrcr".toList := by
  rw [C3_empty_pattern_interleaves "abc".toList "r".toList]
  rfl

/-- C9 witness: `multi_replace` with the empty pattern list leaves "ab"
unchanged. -/
theorem C9_identity_witness : multi_replace "ab".toList [] = some "ab".toList :=
  C9_identity_empty_pattern_list "ab".toList
